import Mathlib

/-
Verification of the sequence module (`sequence.py`): grammar constants, the
encoding-inference heuristic, the single-letter and four-letter validators, the
positional modification rewriter, and the `Sequence` class entry points
`Sequence.modify` and `Sequence.from_json`.

Python strings are embedded as `List Char`; functions that can raise
`SequenceValidationException` return `Except`.  `Sequence.modify` and
`Sequence.from_json` can also fail with a Python `TypeError` (a call-arity /
keyword mismatch in the source), so they return `Except PyError`.
-/

deriving instance DecidableEq for Except

namespace SequencePy

/-! ## Constants (from the module header of `sequence.py`) -/

def RNA_BASES : List Char := ['A', 'C', 'G', 'U']

def DNA_BASES : List Char := ['A', 'C', 'G', 'T']

def LINKAGES : List Char := ['o', 's']

def MODIFIERS : List Char := ['-', 'm', 'b']

def BACKBONES : List Char := ['r', 'd', 'm']

/-- Characters removed from a sequence before any processing. -/
def IGNORED_CHARACTERS : List Char := [' ']

def MINIMUM_SEQUENCE_LENGTH : Nat := 10

def ULTRA_MOD_REQUIRED_SEQUENCE_LENGTH : Nat := 100

/-- The `ENCODING_CHOICES` values `'custom' | 'dna' | 'rna'`. -/
inductive Encoding where
  | custom
  | dna
  | rna
  deriving DecidableEq, Repr

/-- The `MODIFICATION_CHOICES` values `'none' | 'standard' | 'ultra'`. -/
inductive ModificationKind where
  | none
  | standard
  | ultra
  deriving DecidableEq, Repr

/-- The `NUCLEOTIDE_ELEMENTS` values `'modifier' | 'base' | 'backbone' | 'linkage'`. -/
inductive NucleotideElement where
  | modifier
  | base
  | backbone
  | linkage
  deriving DecidableEq, Repr

/-- The distinct `SequenceValidationException` raises of the module, one
constructor per raise site, carrying the data interpolated into the Python
message. `linkageAtEnd` is the raise whose message is
"Linkage found at end of sequence]". -/
inductive SequenceValidationException where
  | invalidModifier (c : Char) (pos : Nat)
  | invalidBase (c : Char) (pos : Nat)
  | invalidBackbone (c : Char) (pos : Nat)
  | invalidLinkage (c : Char) (pos : Nat)
  | linkageAtEnd
  | modifierMissingAtStart
  | belowMinimumLength (len : Nat)
  | unableToDetermineEncoding (s : List Char)
  | missingKeyOnLoad (key : String)
  deriving DecidableEq, Repr

/-- Errors observable from the `Sequence` class methods: either the module's
own `SequenceValidationException`, or a `TypeError` raised by the Python
runtime for a call whose arguments do not match the callee's signature. -/
inductive PyError where
  | sequenceValidation (e : SequenceValidationException)
  | typeError (msg : String)
  deriving DecidableEq, Repr

/-! ## Grammar primitives -/

/-- `clean_sequence`: for each ignored character, remove all its occurrences
(`str.replace(c, '')`). -/
def clean_sequence (raw_sequence : List Char) : List Char :=
  IGNORED_CHARACTERS.foldl (fun s c => s.filter (fun x => x ≠ c)) raw_sequence

/-- Python `str.strip()`: drop leading and trailing whitespace. -/
def py_strip (s : List Char) : List Char :=
  ((s.dropWhile Char.isWhitespace).reverse.dropWhile Char.isWhitespace).reverse

/-- The `reduce(lambda count, m: count + 1 if m in chars else count, s, 0)`
pattern used by the inference heuristics: count characters belonging to a
character class. -/
def count_in (chars : List Char) (s : List Char) : Nat :=
  s.countP (fun c => decide (c ∈ chars))

/-- The `validated_bases` dictionary shared by both validators: legal base set
per encoding (CUSTOM is the union of RNA and DNA bases). -/
def validated_bases : Encoding → List Char
  | .custom => RNA_BASES ++ DNA_BASES
  | .dna => DNA_BASES
  | .rna => RNA_BASES

/-! ## Encoding inference -/

/-- `infer_encoding`: empty cleaned input defaults to RNA; no recognizable base
raises; otherwise the larger count wins with RNA as the tie-break. -/
def infer_encoding (raw_sequence : List Char) :
    Except SequenceValidationException Encoding :=
  let cleaned := clean_sequence raw_sequence
  if cleaned = [] then .ok .rna
  else
    let rna_base_count := count_in RNA_BASES (cleaned.map Char.toUpper)
    let dna_base_count := count_in DNA_BASES (cleaned.map Char.toUpper)
    if dna_base_count = 0 ∧ rna_base_count = 0 then
      .error (.unableToDetermineEncoding cleaned)
    else if rna_base_count < dna_base_count then .ok .dna
    else if dna_base_count < rna_base_count then .ok .rna
    else .ok .rna

/-! ## Single-letter validator -/

/-- The character loop of `validate_single_letter_sequence`: each character,
upper-cased, must be in the legal base set; output is upper-cased when
`normalize` is set. `i` is the current 0-based position. -/
def sl_loop (bases : List Char) (normalize : Bool) :
    Nat → List Char → Except SequenceValidationException (List Char)
  | _, [] => .ok []
  | i, c :: rest =>
    if c.toUpper ∈ bases then
      match sl_loop bases normalize (i + 1) rest with
      | .error e => .error e
      | .ok s => .ok ((if normalize then c.toUpper else c) :: s)
    else .error (.invalidBase c i)

/-- `validate_single_letter_sequence`. -/
def validate_single_letter_sequence (raw_sequence : List Char)
    (encoding : Encoding) (normalize : Bool := true) :
    Except SequenceValidationException (List Char) :=
  let bases := validated_bases encoding
  let cleaned := clean_sequence raw_sequence
  if cleaned.length < MINIMUM_SEQUENCE_LENGTH then
    .error (.belowMinimumLength cleaned.length)
  else sl_loop bases normalize 0 cleaned

/-! ## Four-letter validator -/

/-- One iteration body of the `validate_four_letter_sequence` loop (the
`i % 4` dispatch): returns the emitted character and the updated base
counter, or the error raised at position `i`. -/
def fl_step (bases : List Char) (normalize : Bool) (i : Nat) (c : Char)
    (base_count : Nat) : Except SequenceValidationException (Char × Nat) :=
  if i % 4 = 0 then
    if c.toLower ∈ MODIFIERS then .ok (if normalize then c.toLower else c, base_count)
    else .error (.invalidModifier c i)
  else if i % 4 = 1 then
    if c.toUpper ∈ bases then .ok (if normalize then c.toUpper else c, base_count + 1)
    else .error (.invalidBase c i)
  else if i % 4 = 2 then
    if c.toLower ∈ BACKBONES then .ok (if normalize then c.toLower else c, base_count)
    else .error (.invalidBackbone c i)
  else
    if c.toLower ∈ LINKAGES then .ok (if normalize then c.toLower else c, base_count)
    else .error (.invalidLinkage c i)

/-- The `for i, c in enumerate(...)` loop of `validate_four_letter_sequence`.
After the character at position `i` is processed, if it was the final
character (`rest = []`, i.e. `i + 1 == len`) and `i % 4 != 2`, the loop
raises the "Linkage found at end of sequence]" error. The final base counter
is returned together with the accumulated output. -/
def fl_loop (bases : List Char) (normalize : Bool) :
    Nat → Nat → List Char → Except SequenceValidationException (List Char × Nat)
  | _, base_count, [] => .ok ([], base_count)
  | i, base_count, c :: rest =>
    match fl_step bases normalize i c base_count with
    | .error e => .error e
    | .ok (out, bc) =>
      if rest.isEmpty ∧ i % 4 ≠ 2 then .error .linkageAtEnd
      else
        match fl_loop bases normalize (i + 1) bc rest with
        | .error e => .error e
        | .ok (s, bc2) => .ok (out :: s, bc2)

/-- The guard `clean_raw_sequence[0].lower() not in MODIFIERS`: the `[]` case
is unreachable at its call site because it is only consulted when the
modifier count is positive (hence the string is non-empty). -/
def head_modifier_ok : List Char → Bool
  | [] => true
  | c :: _ => decide (c.toLower ∈ MODIFIERS)

/-- `validate_four_letter_sequence`: leading-modifier guard, the period-4
character loop, then the minimum-length check on the base counter. -/
def validate_four_letter_sequence (raw_sequence : List Char)
    (encoding : Encoding) (normalize : Bool := true) :
    Except SequenceValidationException (List Char) :=
  let bases := validated_bases encoding
  let cleaned := clean_sequence raw_sequence
  let modifier_count := (cleaned.map Char.toLower).countP (fun c => decide (c ∈ MODIFIERS))
  if 0 < modifier_count ∧ head_modifier_ok cleaned = false then
    .error .modifierMissingAtStart
  else
    match fl_loop bases normalize 0 0 cleaned with
    | .error e => .error e
    | .ok (s, base_count) =>
      if base_count < MINIMUM_SEQUENCE_LENGTH then .error (.belowMinimumLength base_count)
      else .ok s

/-- Whether character `c` passes the positional class check that
`validate_four_letter_sequence` applies at 0-based position `i` (predicate
used to state properties about inputs that clear every per-character check). -/
def fl_char_ok (bases : List Char) (i : Nat) (c : Char) : Bool :=
  if i % 4 = 0 then decide (c.toLower ∈ MODIFIERS)
  else if i % 4 = 1 then decide (c.toUpper ∈ bases)
  else if i % 4 = 2 then decide (c.toLower ∈ BACKBONES)
  else decide (c.toLower ∈ LINKAGES)

/-- The number of base positions (0-based index ≡ 1 mod 4) of a four-letter
string: the quantity computed by the validator's running `base_count`. -/
def flr_base_count (s : List Char) : Nat :=
  (List.range s.length).countP (fun j => decide (j % 4 = 1))

/-! ## Dispatcher -/

/-- `validate_sequence`: `None` or blank input is returned as the empty
string; `'slr'` and `'flr'` dispatch to the validators; any other
`sequence_type` falls through every branch and the function returns Python
`None` (embedded as `Option.none`) without raising. -/
def validate_sequence (raw_sequence : Option (List Char)) (encoding : Encoding)
    (sequence_type : String) (normalize : Bool := true) :
    Except SequenceValidationException (Option (List Char)) :=
  match raw_sequence with
  | .none => .ok (some [])
  | some raw =>
    if py_strip raw = [] then .ok (some [])
    else if sequence_type = "slr" then
      (validate_single_letter_sequence raw encoding normalize).map some
    else if sequence_type = "flr" then
      (validate_four_letter_sequence raw encoding normalize).map some
    else .ok .none

/-! ## Modification engine -/

/-- The loop of `modify_four_letter_sequence`: same period-4 positional
dispatch, with the 1-based `nucleotide_index` counter incremented after each
linkage position. At a position whose element kind equals `modification_type`
and whose nucleotide index is in `nucleotide_index_array`, the string
`modification` is emitted instead of the original character. -/
def mfl_loop (modification_type : NucleotideElement)
    (nucleotide_index_array : List Nat) (modification : List Char) :
    Nat → Nat → List Char → List Char
  | _, _, [] => []
  | i, nucleotide_index, c :: rest =>
    if i % 4 = 0 then
      (if modification_type = .modifier ∧ nucleotide_index ∈ nucleotide_index_array then
        modification else [c]) ++
        mfl_loop modification_type nucleotide_index_array modification (i + 1) nucleotide_index rest
    else if i % 4 = 1 then
      (if modification_type = .base ∧ nucleotide_index ∈ nucleotide_index_array then
        modification else [c]) ++
        mfl_loop modification_type nucleotide_index_array modification (i + 1) nucleotide_index rest
    else if i % 4 = 2 then
      (if modification_type = .backbone ∧ nucleotide_index ∈ nucleotide_index_array then
        modification else [c]) ++
        mfl_loop modification_type nucleotide_index_array modification (i + 1) nucleotide_index rest
    else
      (if modification_type = .linkage ∧ nucleotide_index ∈ nucleotide_index_array then
        modification else [c]) ++
        mfl_loop modification_type nucleotide_index_array modification (i + 1) (nucleotide_index + 1) rest

/-- `modify_four_letter_sequence`: clean, then rewrite with the loop starting
at position 0 and nucleotide index 1. -/
def modify_four_letter_sequence (four_letter_sequence : List Char)
    (modification_type : NucleotideElement) (nucleotide_index_array : List Nat)
    (modification : List Char) : List Char :=
  mfl_loop modification_type nucleotide_index_array modification 0 1
    (clean_sequence four_letter_sequence)

/-- Number of positions (over the second list's index range) at which two
lists hold different characters. -/
def changed_count (a b : List Char) : Nat :=
  ((Finset.range b.length).filter (fun p => a[p]? ≠ b[p]?)).card

/-! ## The Sequence class -/

/-- A Python `TypeError` for a call missing a required positional argument,
with the message CPython produces. -/
def missing_argument_type_error (fname arg : String) : PyError :=
  .typeError (fname ++ "() missing 1 required positional argument: " ++ arg)

/-- `Sequence.modify(cls, four_letter_sequence, modification)`. Its first
statement is `validate_four_letter_sequence(four_letter_sequence)`: this call
omits the second parameter `encoding`, which has no default value (see
`validate_four_letter_sequence` above and `def validate_four_letter_sequence
(raw_sequence: str, encoding: str, normalize: bool = True)` in the source), so
Python raises `TypeError` at that call, before any of the NONE / STANDARD /
ULTRA logic below it can run. The whole method therefore reduces to this
raise, for every argument pair. -/
def Sequence.modify (four_letter_sequence : List Char)
    (modification : ModificationKind) : Except PyError (List Char) :=
  .error (missing_argument_type_error "validate_four_letter_sequence" "encoding")

/-- The JSON record consumed by `Sequence.from_json`: presence or absence of
each of the five keys the method reads (`data[k]` on an absent key raises
`KeyError`). The payload types mirror the values `to_json` writes. -/
structure SequenceJson where
  customer_sequence : Option (List Char)
  sequence_encoding : Option String
  sequence_type : Option String
  modified : Option Bool
  customer_label : Option (Option String)
  deriving DecidableEq, Repr

/-- `Sequence.from_json(cls, data, product=None)`. The `cls(...)` call
evaluates its keyword arguments in order, so the first absent key among
`customer_sequence`, `sequence_encoding`, `sequence_type`, `modified`,
`customer_label` raises `KeyError`, which the method catches and re-raises as
a `SequenceValidationException` naming that key. When all five keys are
present, the call `cls(..., modified=data['modified'], ...)` itself raises
`TypeError`: `Sequence.__init__` has no parameter named `modified` (its
parameter is `modification`), and `TypeError` is not caught by the
`except KeyError` handler. Construction therefore never succeeds and the
success payload is vacuous. -/
def Sequence.from_json (data : SequenceJson) : Except PyError Unit :=
  match data.customer_sequence with
  | .none => .error (.sequenceValidation (.missingKeyOnLoad "customer_sequence"))
  | some _ =>
    match data.sequence_encoding with
    | .none => .error (.sequenceValidation (.missingKeyOnLoad "sequence_encoding"))
    | some _ =>
      match data.sequence_type with
      | .none => .error (.sequenceValidation (.missingKeyOnLoad "sequence_type"))
      | some _ =>
        match data.modified with
        | .none => .error (.sequenceValidation (.missingKeyOnLoad "modified"))
        | some _ =>
          match data.customer_label with
          | .none => .error (.sequenceValidation (.missingKeyOnLoad "customer_label"))
          | some _ =>
            .error (.typeError "__init__() got an unexpected keyword argument: modified")

/-! ## Sample sequences -/

/-- A valid, already-normalized four-letter RNA sequence of 10 nucleotides:
nine `-Aro` quads followed by the final (linkage-less) `-Ar`. -/
def sample_flr_10 : List Char :=
  (List.replicate 9 ['-', 'A', 'r', 'o']).flatten ++ ['-', 'A', 'r']

/-- A valid, already-normalized four-letter RNA sequence of 100 nucleotides:
ninety-nine `-Aro` quads followed by the final (linkage-less) `-Ar`. -/
def sample_flr_100 : List Char :=
  (List.replicate 99 ['-', 'A', 'r', 'o']).flatten ++ ['-', 'A', 'r']

/-- A well-formed but too-short four-letter fragment of 2 nucleotides. -/
def sample_flr_2 : List Char := ['-', 'G', 'r', 'o', '-', 'A', 'r']

/-! ## Scan lemmas for the four-letter validator -/

lemma fl_step_ok_count {bases : List Char} {norm : Bool} {i : Nat} {c : Char}
    {bc : Nat} {out : Char} {bc2 : Nat}
    (h : fl_step bases norm i c bc = .ok (out, bc2)) :
    bc2 = bc + if i % 4 = 1 then 1 else 0 := by
  have h4 : i % 4 = 0 ∨ i % 4 = 1 ∨ i % 4 = 2 ∨ i % 4 = 3 := by omega
  rcases h4 with h4 | h4 | h4 | h4 <;>
    simp only [fl_step, h4] at h <;>
    norm_num at h <;>
    split at h <;>
    simp_all

lemma fl_step_ok_head_modifier {bases : List Char} {norm : Bool} {c : Char}
    {bc : Nat} {out : Char} {bc2 : Nat}
    (h : fl_step bases norm 0 c bc = .ok (out, bc2)) :
    c.toLower ∈ MODIFIERS := by
  by_cases hm : c.toLower ∈ MODIFIERS
  · exact hm
  · simp [fl_step, hm] at h

lemma fl_loop_ok_facts (bases : List Char) (norm : Bool) :
    ∀ (l : List Char) (i bc : Nat) (s : List Char) (bc2 : Nat),
      fl_loop bases norm i bc l = .ok (s, bc2) →
      s.length = l.length ∧ bc2 + (i + 2) / 4 = bc + (i + l.length + 2) / 4 ∧
        (l ≠ [] → (i + l.length - 1) % 4 = 2) := by
  intro l
  induction l with
  | nil =>
    intro i bc s bc2 h
    simp only [fl_loop, Except.ok.injEq, Prod.mk.injEq] at h
    obtain ⟨h1, h2⟩ := h
    subst h1
    subst h2
    simp
  | cons c rest ih =>
    intro i bc s bc2 h
    simp only [fl_loop] at h
    cases hstep : fl_step bases norm i c bc with
    | error e => simp [fl_loop, hstep] at h
    | ok p =>
      obtain ⟨out, bc1⟩ := p
      simp only [fl_loop, hstep] at h
      by_cases hend : rest.isEmpty ∧ i % 4 ≠ 2
      · rw [if_pos hend] at h; simp at h
      · rw [if_neg hend] at h
        cases hrec : fl_loop bases norm (i + 1) bc1 rest with
        | error e => rw [hrec] at h; simp at h
        | ok q =>
          obtain ⟨s1, bcr⟩ := q
          rw [hrec] at h
          simp only [Except.ok.injEq, Prod.mk.injEq] at h
          obtain ⟨hs, hbc⟩ := h
          subst hs
          subst hbc
          obtain ⟨ihlen, ihcnt, ihlast⟩ := ih (i + 1) bc1 s1 bcr hrec
          refine ⟨by simp [ihlen], ?_, ?_⟩
          · have hbc1 := fl_step_ok_count hstep
            by_cases h1 : i % 4 = 1 <;> simp [h1] at hbc1 <;> simp [List.length_cons] <;> omega
          · intro _
            by_cases hrest : rest = []
            · subst hrest
              simp at hend
              simp
              omega
            · have hl := ihlast hrest
              have hlen1 : 1 ≤ rest.length := List.length_pos.mpr hrest
              simp only [List.length_cons]
              omega

lemma fl_loop_ok_head_modifier {bases : List Char} {norm : Bool} {c : Char}
    {rest : List Char} {bc : Nat} {s : List Char} {bc2 : Nat}
    (h : fl_loop bases norm 0 bc (c :: rest) = .ok (s, bc2)) :
    head_modifier_ok (c :: rest) = true := by
  simp only [fl_loop] at h
  cases hstep : fl_step bases norm 0 c bc with
  | error e => rw [hstep] at h; simp at h
  | ok p =>
    obtain ⟨out, bc1⟩ := p
    simpa [head_modifier_ok] using fl_step_ok_head_modifier hstep

lemma fl_step_error_char {bases : List Char} {norm : Bool} {i : Nat} {c : Char}
    {bc : Nat} {e : SequenceValidationException}
    (h : fl_step bases norm i c bc = .error e) :
    fl_char_ok bases i c = false := by
  have h4 : i % 4 = 0 ∨ i % 4 = 1 ∨ i % 4 = 2 ∨ i % 4 = 3 := by omega
  rcases h4 with h4 | h4 | h4 | h4 <;>
    simp only [fl_step, fl_char_ok, h4] at h ⊢ <;>
    norm_num at h ⊢ <;>
    split at h <;>
    simp_all

lemma fl_loop_all_ok_end (bases : List Char) (norm : Bool) :
    ∀ (l : List Char) (i bc : Nat), l ≠ [] →
      (∀ j (hj : j < l.length), fl_char_ok bases (i + j) (l.get ⟨j, hj⟩) = true) →
      (i + l.length - 1) % 4 ≠ 2 →
      fl_loop bases norm i bc l = .error .linkageAtEnd := by
  intro l
  induction l with
  | nil => intro i bc hne; exact absurd rfl hne
  | cons c rest ih =>
    intro i bc hne hchars hlast
    have h0 : fl_char_ok bases (i + 0) c = true := hchars 0 (by simp)
    rw [Nat.add_zero] at h0
    cases hstep : fl_step bases norm i c bc with
    | error e =>
      have hf := fl_step_error_char hstep
      rw [h0] at hf
      cases hf
    | ok p =>
      obtain ⟨out, bc2⟩ := p
      simp only [fl_loop, hstep]
      by_cases hrest : rest = []
      · subst hrest
        have hi : i % 4 ≠ 2 := by simpa using hlast
        rw [if_pos ⟨by simp, hi⟩]
      · have hcond : ¬ ((rest.isEmpty = true) ∧ i % 4 ≠ 2) := by
          intro hc
          exact hrest (List.isEmpty_iff.mp hc.1)
        rw [if_neg hcond]
        rw [ih (i + 1) bc2 hrest ?chars ?last]
        case chars =>
          intro j hj
          have hc := hchars (j + 1) (by simpa using Nat.succ_lt_succ hj)
          have harith : i + (j + 1) = i + 1 + j := by omega
          rw [harith] at hc
          simpa using hc
        case last =>
          simp only [List.length_cons] at hlast
          omega

lemma head_modifier_ok_of_char_ok {bases : List Char} {l : List Char}
    (h : ∀ j (hj : j < l.length), fl_char_ok bases j (l.get ⟨j, hj⟩) = true) :
    head_modifier_ok l = true := by
  cases l with
  | nil => rfl
  | cons c rest =>
    have h0 := h 0 (by simp)
    simp only [List.get, fl_char_ok] at h0
    norm_num at h0
    simp [head_modifier_ok, h0]

lemma range_countP_mod4 (n : Nat) :
    (List.range n).countP (fun j => decide (j % 4 = 1)) = (n + 2) / 4 := by
  induction n with
  | zero => rfl
  | succ n ih =>
    rw [List.range_succ, List.countP_append, ih]
    by_cases h : n % 4 = 1 <;> simp [List.countP_cons, h] <;> omega

lemma flr_base_count_eq (s : List Char) : flr_base_count s = (s.length + 2) / 4 :=
  range_countP_mod4 s.length

lemma validate_four_letter_ok_loop {raw : List Char} {enc : Encoding}
    {norm : Bool} {s : List Char}
    (h : validate_four_letter_sequence raw enc norm = .ok s) :
    ∃ bc, fl_loop (validated_bases enc) norm 0 0 (clean_sequence raw) = .ok (s, bc) ∧
      MINIMUM_SEQUENCE_LENGTH ≤ bc := by
  simp only [validate_four_letter_sequence] at h
  split at h
  · simp at h
  · cases hloop : fl_loop (validated_bases enc) norm 0 0 (clean_sequence raw) with
    | error e => simp [hloop] at h
    | ok p =>
      obtain ⟨s0, bc⟩ := p
      simp only [hloop] at h
      split at h
      · simp at h
      · simp only [Except.ok.injEq] at h
        subst h
        rename_i hge
        exact ⟨bc, by simp [hloop], by omega⟩

/-! ## Scan lemmas for the single-letter validator -/

lemma sl_loop_ok_map {bases : List Char} :
    ∀ {l : List Char} {i : Nat} {s : List Char},
      sl_loop bases true i l = .ok s →
      s = l.map Char.toUpper ∧ ∀ c ∈ l, c.toUpper ∈ bases := by
  intro l
  induction l with
  | nil =>
    intro i s h
    simp only [sl_loop, Except.ok.injEq] at h
    subst h
    simp
  | cons c rest ih =>
    intro i s h
    simp only [sl_loop] at h
    split at h
    · rename_i hmem
      cases hrec : sl_loop bases true (i + 1) rest with
      | error e => rw [hrec] at h; simp at h
      | ok s1 =>
        simp only [hrec, if_true] at h
        simp only [Except.ok.injEq] at h
        subst h
        obtain ⟨ihm, ihb⟩ := ih hrec
        refine ⟨by simp [ihm], ?_⟩
        intro x hx
        rcases List.mem_cons.mp hx with hx | hx
        · subst hx; exact hmem
        · exact ihb x hx
    · simp at h

lemma sl_loop_fixed {bases : List Char} (norm : Bool) :
    ∀ (l : List Char) (i : Nat), (∀ c ∈ l, c ∈ bases ∧ c.toUpper = c) →
      sl_loop bases norm i l = .ok l := by
  intro l
  induction l with
  | nil => intro i _; rfl
  | cons c rest ih =>
    intro i hl
    obtain ⟨hc, hcu⟩ := hl c (by simp)
    simp only [sl_loop]
    rw [if_pos (by rw [hcu]; exact hc)]
    rw [ih (i + 1) (fun x hx => hl x (by simp [hx]))]
    cases norm <;> simp [hcu]

lemma validated_bases_upper_fixed (enc : Encoding) :
    ∀ c ∈ validated_bases enc, c.toUpper = c ∧ c ≠ ' ' := by
  cases enc <;> decide

lemma clean_sequence_of_no_space {s : List Char} (h : ∀ c ∈ s, c ≠ ' ') :
    clean_sequence s = s := by
  simp only [clean_sequence, IGNORED_CHARACTERS, List.foldl]
  exact List.filter_eq_self.mpr (fun a ha => by simpa using h a ha)

/-! ## Pointwise lemmas for the modification rewriter -/

lemma mfl_loop_singleton_length (ty : NucleotideElement) (arr : List Nat)
    (m : Char) :
    ∀ (l : List Char) (i ni : Nat), (mfl_loop ty arr [m] i ni l).length = l.length := by
  intro l
  induction l with
  | nil => intro i ni; rfl
  | cons c rest ih =>
    intro i ni
    have h4 : i % 4 = 0 ∨ i % 4 = 1 ∨ i % 4 = 2 ∨ i % 4 = 3 := by omega
    rcases h4 with h4 | h4 | h4 | h4 <;>
      simp only [mfl_loop, h4] <;>
      norm_num <;>
      split <;>
      simp [ih] <;>
      omega

/-- Pointwise description of a LINKAGE rewrite with a single-character
replacement: position `j` (counting from start position `i`, with the
nucleotide counter in its invariant state `i / 4 + 1`) is replaced exactly
when it is a linkage slot whose nucleotide index is in the index array. -/
lemma mfl_loop_linkage_get (arr : List Nat) (m : Char) :
    ∀ (l : List Char) (i ni j : Nat), ni = i / 4 + 1 →
      (mfl_loop .linkage arr [m] i ni l)[j]? =
        if (i + j) % 4 = 3 ∧ (i + j) / 4 + 1 ∈ arr ∧ j < l.length then some m
        else l[j]? := by
  intro l
  induction l with
  | nil =>
    intro i ni j hni
    simp [mfl_loop]
  | cons c rest ih =>
    intro i ni j hni
    have h4 : i % 4 = 0 ∨ i % 4 = 1 ∨ i % 4 = 2 ∨ i % 4 = 3 := by omega
    rcases h4 with h4 | h4 | h4 | h4
    case inl | inr.inl | inr.inr.inl =>
      have hred : mfl_loop .linkage arr [m] i ni (c :: rest) =
          c :: mfl_loop .linkage arr [m] (i + 1) ni rest := by
        simp [mfl_loop, h4]
      rw [hred]
      cases j with
      | zero =>
        rw [if_neg (by rintro ⟨h3, -, -⟩; omega)]
        simp
      | succ j =>
        rw [List.getElem?_cons_succ, List.getElem?_cons_succ]
        rw [ih (i + 1) ni j (by omega)]
        have harith : i + 1 + j = i + (j + 1) := by omega
        rw [harith]
        simp [List.length_cons, Nat.add_lt_add_iff_right]
    case inr.inr.inr =>
      have hred : mfl_loop .linkage arr [m] i ni (c :: rest) =
          ((if ni ∈ arr then m else c) ::
            mfl_loop .linkage arr [m] (i + 1) (ni + 1) rest) := by
        simp only [mfl_loop, h4]
        norm_num
        rw [(apply_ite (fun x => [x]) (ni ∈ arr) m c).symm]
        simp
      rw [hred]
      cases j with
      | zero =>
        rw [List.getElem?_cons_zero]
        by_cases hmem : ni ∈ arr
        · rw [if_pos hmem,
            if_pos ⟨by omega, by rw [show (i + 0) / 4 + 1 = ni by omega]; exact hmem,
              by simp⟩]
        · rw [if_neg hmem,
            if_neg (by
              rintro ⟨-, hm, -⟩
              rw [show (i + 0) / 4 + 1 = ni by omega] at hm
              exact hmem hm)]
          simp
      | succ j =>
        rw [List.getElem?_cons_succ, List.getElem?_cons_succ]
        rw [ih (i + 1) (ni + 1) j (by omega)]
        have harith : i + 1 + j = i + (j + 1) := by omega
        rw [harith]
        simp [List.length_cons, Nat.add_lt_add_iff_right]

/-! ## Claim theorems -/

/-- C8: `infer_encoding` returns RNA on empty cleaned input; fails with
`SequenceValidation` when the cleaned input is non-empty but holds no DNA and
no RNA base; returns DNA when the DNA-base count strictly exceeds the RNA-base
count; returns RNA when the RNA-base count strictly exceeds the DNA-base count
and also on a non-zero tie. -/
theorem infer_encoding_cases (raw : List Char) :
    (clean_sequence raw = [] → infer_encoding raw = .ok .rna) ∧
    (clean_sequence raw ≠ [] →
      count_in DNA_BASES ((clean_sequence raw).map Char.toUpper) = 0 →
      count_in RNA_BASES ((clean_sequence raw).map Char.toUpper) = 0 →
      infer_encoding raw = .error (.unableToDetermineEncoding (clean_sequence raw))) ∧
    (count_in RNA_BASES ((clean_sequence raw).map Char.toUpper) <
        count_in DNA_BASES ((clean_sequence raw).map Char.toUpper) →
      infer_encoding raw = .ok .dna) ∧
    (count_in DNA_BASES ((clean_sequence raw).map Char.toUpper) <
        count_in RNA_BASES ((clean_sequence raw).map Char.toUpper) →
      infer_encoding raw = .ok .rna) ∧
    (count_in DNA_BASES ((clean_sequence raw).map Char.toUpper) =
        count_in RNA_BASES ((clean_sequence raw).map Char.toUpper) →
      0 < count_in RNA_BASES ((clean_sequence raw).map Char.toUpper) →
      infer_encoding raw = .ok .rna) := by
  refine ⟨fun h => ?_, fun h h1 h2 => ?_, fun h => ?_, fun h => ?_, fun h h1 => ?_⟩
  · simp [infer_encoding, h]
  · simp [infer_encoding, h, h1, h2]
  · have hne : clean_sequence raw ≠ [] := by
      intro he
      rw [he] at h
      simp [count_in] at h
    have hd : count_in DNA_BASES ((clean_sequence raw).map Char.toUpper) ≠ 0 := by omega
    simp [infer_encoding, hne, hd, h]
  · have hne : clean_sequence raw ≠ [] := by
      intro he
      rw [he] at h
      simp [count_in] at h
    have hr : count_in RNA_BASES ((clean_sequence raw).map Char.toUpper) ≠ 0 := by omega
    have h3 : ¬ (count_in RNA_BASES ((clean_sequence raw).map Char.toUpper) <
        count_in DNA_BASES ((clean_sequence raw).map Char.toUpper)) := by omega
    simp [infer_encoding, hne, hr, h3, h]
  · have hne : clean_sequence raw ≠ [] := by
      intro he
      rw [he] at h1
      simp [count_in] at h1
    have hr : count_in RNA_BASES ((clean_sequence raw).map Char.toUpper) ≠ 0 := by omega
    have h3 : ¬ (count_in RNA_BASES ((clean_sequence raw).map Char.toUpper) <
        count_in DNA_BASES ((clean_sequence raw).map Char.toUpper)) := by omega
    have h4 : ¬ (count_in DNA_BASES ((clean_sequence raw).map Char.toUpper) <
        count_in RNA_BASES ((clean_sequence raw).map Char.toUpper)) := by omega
    simp [infer_encoding, hne, hr, h3, h4]

/-- Witness for C8, at the inputs listed in the spec examples. -/
theorem infer_encoding_cases_witness :
    infer_encoding [] = .ok .rna ∧
    infer_encoding ['A', 'C', 'G', 'T'] = .ok .dna ∧
    infer_encoding ['A', 'C', 'G', 'U'] = .ok .rna ∧
    infer_encoding ['A', 'C', 'G'] = .ok .rna ∧
    infer_encoding ['X', 'Y', 'Z'] = .error (.unableToDetermineEncoding ['X', 'Y', 'Z']) :=
  ⟨(infer_encoding_cases []).1 (by decide),
   (infer_encoding_cases ['A', 'C', 'G', 'T']).2.2.1 (by decide),
   (infer_encoding_cases ['A', 'C', 'G', 'U']).2.2.2.1 (by decide),
   (infer_encoding_cases ['A', 'C', 'G']).2.2.2.2 (by decide) (by decide),
   (infer_encoding_cases ['X', 'Y', 'Z']).2.1 (by decide) (by decide) (by decide)⟩

/-- C10: `validate_sequence` on a non-null, non-blank raw input with a
`sequence_type` that is neither `'slr'` nor `'flr'` falls through every
branch and returns Python `None` without raising. -/
theorem validate_sequence_unknown_type_passthrough (raw : List Char)
    (encoding : Encoding) (sequence_type : String) (normalize : Bool)
    (h0 : py_strip raw ≠ []) (h1 : sequence_type ≠ "slr")
    (h2 : sequence_type ≠ "flr") :
    validate_sequence (some raw) encoding sequence_type normalize = .ok .none := by
  simp [validate_sequence, h0, h1, h2]

/-- Witness for C10. -/
theorem validate_sequence_unknown_type_passthrough_witness :
    validate_sequence (some ['A', 'C', 'G', 'U', 'A', 'C', 'G', 'U', 'A', 'C'])
      .rna "xyz" true = .ok .none :=
  validate_sequence_unknown_type_passthrough _ _ _ _ (by decide) (by decide) (by decide)

/-- C6: `Sequence.from_json` re-raises the first absent key (in the order the
`cls(...)` call evaluates its arguments) as a `SequenceValidation` error naming
that key; but when all five required keys are present it does NOT construct the
aggregate: the `cls(...)` call raises `TypeError` because `__init__` has no
parameter named `modified`. -/
theorem from_json_missing_key_then_typeerror (data : SequenceJson) :
    (data.customer_sequence = .none →
      Sequence.from_json data =
        .error (.sequenceValidation (.missingKeyOnLoad "customer_sequence"))) ∧
    (data.customer_sequence ≠ .none → data.sequence_encoding = .none →
      Sequence.from_json data =
        .error (.sequenceValidation (.missingKeyOnLoad "sequence_encoding"))) ∧
    (data.customer_sequence ≠ .none → data.sequence_encoding ≠ .none →
      data.sequence_type = .none →
      Sequence.from_json data =
        .error (.sequenceValidation (.missingKeyOnLoad "sequence_type"))) ∧
    (data.customer_sequence ≠ .none → data.sequence_encoding ≠ .none →
      data.sequence_type ≠ .none → data.modified = .none →
      Sequence.from_json data =
        .error (.sequenceValidation (.missingKeyOnLoad "modified"))) ∧
    (data.customer_sequence ≠ .none → data.sequence_encoding ≠ .none →
      data.sequence_type ≠ .none → data.modified ≠ .none →
      data.customer_label = .none →
      Sequence.from_json data =
        .error (.sequenceValidation (.missingKeyOnLoad "customer_label"))) ∧
    (data.customer_sequence ≠ .none → data.sequence_encoding ≠ .none →
      data.sequence_type ≠ .none → data.modified ≠ .none →
      data.customer_label ≠ .none →
      Sequence.from_json data =
        .error (.typeError "__init__() got an unexpected keyword argument: modified")) := by
  obtain ⟨a, b, c, d, e⟩ := data
  refine ⟨fun h1 => ?_, fun h1 h2 => ?_, fun h1 h2 h3 => ?_, fun h1 h2 h3 h4 => ?_,
    fun h1 h2 h3 h4 h5 => ?_, fun h1 h2 h3 h4 h5 => ?_⟩ <;>
    cases a <;> cases b <;> cases c <;> cases d <;> cases e <;>
      simp_all [Sequence.from_json]

/-- Witness for C6: a record with all five keys present (label null) and one
with the first key absent. -/
theorem from_json_missing_key_then_typeerror_witness :
    Sequence.from_json ⟨some [], some "rna", some "slr", some false, some .none⟩ =
      .error (.typeError "__init__() got an unexpected keyword argument: modified") ∧
    Sequence.from_json ⟨.none, some "rna", some "slr", some false, some .none⟩ =
      .error (.sequenceValidation (.missingKeyOnLoad "customer_sequence")) :=
  ⟨(from_json_missing_key_then_typeerror _).2.2.2.2.2 (by decide) (by decide)
      (by decide) (by decide) (by decide),
   (from_json_missing_key_then_typeerror _).1 (by decide)⟩

set_option maxRecDepth 8000

/-- C1: the claim describes `Sequence.modify` with ULTRA failing with
`SequenceValidation` off 100 nucleotides and rewriting fixed index sets at
100; in the code, `Sequence.modify` raises `TypeError` on every input — valid
100-mers included — because its first statement calls
`validate_four_letter_sequence` without the required `encoding` argument. -/
theorem modify_ultra_raises_typeerror :
    validate_four_letter_sequence sample_flr_100 .rna true = .ok sample_flr_100 ∧
    Sequence.modify sample_flr_100 .ultra =
      .error (missing_argument_type_error "validate_four_letter_sequence" "encoding") ∧
    validate_four_letter_sequence sample_flr_10 .rna true = .ok sample_flr_10 ∧
    Sequence.modify sample_flr_10 .ultra =
      .error (missing_argument_type_error "validate_four_letter_sequence" "encoding") :=
  ⟨by decide, rfl, by decide, rfl⟩

/-- C3: the claim describes `Sequence.modify` with STANDARD rewriting the
first and last three nucleotides; in the code, `Sequence.modify` raises
`TypeError` on every input (missing `encoding` argument in its first call), so
no rewriting happens even on a valid 10-nucleotide sequence. -/
theorem modify_standard_raises_typeerror :
    validate_four_letter_sequence sample_flr_10 .rna true = .ok sample_flr_10 ∧
    Sequence.modify sample_flr_10 .standard =
      .error (missing_argument_type_error "validate_four_letter_sequence" "encoding") :=
  ⟨by decide, rfl⟩

/-- C4: the claim says `Sequence.modify` with kind NONE returns its input
unchanged; in the code, `Sequence.modify` raises `TypeError` on every input
(missing `encoding` argument in its first call), so even a valid, normalized
four-letter sequence is not returned. -/
theorem modify_none_raises_typeerror :
    validate_four_letter_sequence sample_flr_10 .rna true = .ok sample_flr_10 ∧
    Sequence.modify sample_flr_10 ModificationKind.none =
      .error (missing_argument_type_error "validate_four_letter_sequence" "encoding") :=
  ⟨by decide, rfl⟩

/-- C2: every string accepted by `validate_four_letter_sequence` has total
length congruent to 3 modulo 4, its base count (the number of positions
≡ 1 mod 4, the quantity the validator's running `base_count` computes) equals
`(len + 1) / 4` and is at least 10; and whenever the character scan completes
with its running base counter below 10 the input is rejected with the
below-minimum-length error carrying that counter. -/
theorem validate_four_letter_accepted_shape :
    (∀ (raw : List Char) (enc : Encoding) (norm : Bool) (s : List Char),
      validate_four_letter_sequence raw enc norm = .ok s →
      s.length % 4 = 3 ∧ flr_base_count s = (s.length + 1) / 4 ∧
        MINIMUM_SEQUENCE_LENGTH ≤ flr_base_count s) ∧
    (∀ (raw : List Char) (enc : Encoding) (norm : Bool) (out : List Char) (bc : Nat),
      fl_loop (validated_bases enc) norm 0 0 (clean_sequence raw) = .ok (out, bc) →
      bc < MINIMUM_SEQUENCE_LENGTH →
      validate_four_letter_sequence raw enc norm = .error (.belowMinimumLength bc)) := by
  constructor
  · intro raw enc norm s h
    obtain ⟨bc, hloop, hbc⟩ := validate_four_letter_ok_loop h
    obtain ⟨hlen, hcnt, hlast⟩ := fl_loop_ok_facts _ _ _ 0 0 _ _ hloop
    by_cases hnil : clean_sequence raw = []
    · rw [hnil] at hloop
      simp only [fl_loop, Except.ok.injEq, Prod.mk.injEq] at hloop
      have : MINIMUM_SEQUENCE_LENGTH ≤ 0 := hloop.2 ▸ hbc
      simp [MINIMUM_SEQUENCE_LENGTH] at this
    · have h2 := hlast hnil
      have hpos : 0 < (clean_sequence raw).length := List.length_pos.mpr hnil
      rw [flr_base_count_eq, hlen]
      simp only [MINIMUM_SEQUENCE_LENGTH] at hbc ⊢
      omega
  · intro raw enc norm out bc hloop hlt
    simp only [validate_four_letter_sequence]
    have hpre : ¬ (0 < ((clean_sequence raw).map Char.toLower).countP
        (fun c => decide (c ∈ MODIFIERS)) ∧
        head_modifier_ok (clean_sequence raw) = false) := by
      cases hclean : clean_sequence raw with
      | nil => simp [hclean]
      | cons c rest =>
        rw [hclean] at hloop
        simp [fl_loop_ok_head_modifier hloop]
    rw [if_neg hpre]
    simp [hloop, hlt]

/-- Witness for C2, at the valid 10-nucleotide sample and at the well-formed
but 2-nucleotide fragment (whose scan completes with counter 2 < 10). -/
theorem validate_four_letter_accepted_shape_witness :
    MINIMUM_SEQUENCE_LENGTH ≤ flr_base_count sample_flr_10 ∧
    validate_four_letter_sequence sample_flr_2 .rna true =
      .error (.belowMinimumLength 2) :=
  ⟨(validate_four_letter_accepted_shape.1 sample_flr_10 .rna true sample_flr_10
      (by decide)).2.2,
   validate_four_letter_accepted_shape.2 sample_flr_2 .rna true
     ['-', 'G', 'r', 'o', '-', 'A', 'r'] 2 (by decide) (by decide)⟩

/-- C7: for every string accepted by `validate_single_letter_sequence` with
`normalize` set, re-validating the normalized output with `normalize` unset
returns it unchanged, and re-validating it with `normalize` set is idempotent. -/
theorem validate_single_letter_roundtrip (raw : List Char) (enc : Encoding)
    (s : List Char)
    (h : validate_single_letter_sequence raw enc true = .ok s) :
    validate_single_letter_sequence s enc false = .ok s ∧
    validate_single_letter_sequence s enc true = .ok s := by
  have hlen10 : ¬ ((clean_sequence raw).length < MINIMUM_SEQUENCE_LENGTH) := by
    intro hlt
    simp [validate_single_letter_sequence, hlt] at h
  simp only [validate_single_letter_sequence] at h
  rw [if_neg hlen10] at h
  obtain ⟨hmap, hmem⟩ := sl_loop_ok_map h
  have hschars : ∀ c ∈ s, c ∈ validated_bases enc ∧ c.toUpper = c ∧ c ≠ ' ' := by
    intro c hc
    rw [hmap] at hc
    obtain ⟨x, hx, rfl⟩ := List.mem_map.mp hc
    have hxb := hmem x hx
    obtain ⟨hfix, hsp⟩ := validated_bases_upper_fixed enc _ hxb
    exact ⟨hxb, hfix, hsp⟩
  have hclean : clean_sequence s = s :=
    clean_sequence_of_no_space (fun c hc => (hschars c hc).2.2)
  have hslen : s.length = (clean_sequence raw).length := by rw [hmap]; simp
  have hlen2 : ¬ (s.length < MINIMUM_SEQUENCE_LENGTH) := by omega
  constructor <;>
  · simp only [validate_single_letter_sequence, hclean]
    rw [if_neg hlen2]
    exact sl_loop_fixed _ s 0 (fun c hc => ⟨(hschars c hc).1, (hschars c hc).2.1⟩)

/-- Witness for C7: a lower-case RNA string normalizes to upper case, and the
normalized output is a fixed point of both validation modes. -/
theorem validate_single_letter_roundtrip_witness :
    validate_single_letter_sequence
      ['A', 'C', 'G', 'U', 'A', 'C', 'G', 'U', 'A', 'C'] .rna false =
      .ok ['A', 'C', 'G', 'U', 'A', 'C', 'G', 'U', 'A', 'C'] :=
  (validate_single_letter_roundtrip
      ['a', 'c', 'g', 'u', 'a', 'c', 'g', 'u', 'a', 'c'] .rna
      ['A', 'C', 'G', 'U', 'A', 'C', 'G', 'U', 'A', 'C'] (by decide)).1

/-- C9: on an input whose cleaned length is ≡ 3 mod 4 (a four-letter string
ending on a backbone position), a LINKAGE rewrite with any index set and any
single replacement character preserves the length and leaves the last three
characters — the final, linkage-less nucleotide — unchanged; and if the index
set contains the final nucleotide's index `(len + 1) / 4`, the rewrite changes
strictly fewer characters than the set has indices. -/
theorem modify_linkage_final_nucleotide (s : List Char) (arr : List Nat)
    (m : Char) (h : (clean_sequence s).length % 4 = 3) :
    (modify_four_letter_sequence s .linkage arr [m]).length =
      (clean_sequence s).length ∧
    (modify_four_letter_sequence s .linkage arr [m]).drop
        ((clean_sequence s).length - 3) =
      (clean_sequence s).drop ((clean_sequence s).length - 3) ∧
    (((clean_sequence s).length + 1) / 4 ∈ arr →
      changed_count (modify_four_letter_sequence s .linkage arr [m])
        (clean_sequence s) < arr.length) := by
  have hget : ∀ j, (modify_four_letter_sequence s .linkage arr [m])[j]? =
      if j % 4 = 3 ∧ j / 4 + 1 ∈ arr ∧ j < (clean_sequence s).length then some m
      else (clean_sequence s)[j]? := by
    intro j
    have hp := mfl_loop_linkage_get arr m (clean_sequence s) 0 1 j (by norm_num)
    simpa [modify_four_letter_sequence] using hp
  have hlen : (modify_four_letter_sequence s .linkage arr [m]).length =
      (clean_sequence s).length :=
    mfl_loop_singleton_length .linkage arr m (clean_sequence s) 0 1
  refine ⟨hlen, ?_, ?_⟩
  · apply List.ext_getElem?
    intro n
    by_cases hn : n < 3
    · rw [List.getElem?_drop, List.getElem?_drop,
        hget ((clean_sequence s).length - 3 + n),
        if_neg (by rintro ⟨h3, -, -⟩; omega)]
    · rw [List.getElem?_drop, List.getElem?_drop,
        List.getElem?_eq_none (l := modify_four_letter_sequence s .linkage arr [m])
          (by omega),
        List.getElem?_eq_none (by omega)]
  · intro hK
    simp only [changed_count]
    have hmemS : ∀ p ∈ (Finset.range (clean_sequence s).length).filter
        (fun p => (modify_four_letter_sequence s .linkage arr [m])[p]? ≠
          (clean_sequence s)[p]?),
        p % 4 = 3 ∧ p / 4 + 1 ∈ arr ∧ p < (clean_sequence s).length := by
      intro p hp
      rw [Finset.mem_filter, Finset.mem_range] at hp
      obtain ⟨hpn, hne⟩ := hp
      by_contra hcon
      exact hne (by rw [hget p, if_neg hcon])
    have hcard : ((Finset.range (clean_sequence s).length).filter
        (fun p => (modify_four_letter_sequence s .linkage arr [m])[p]? ≠
          (clean_sequence s)[p]?)).card ≤
        (arr.toFinset.erase (((clean_sequence s).length + 1) / 4)).card := by
      apply Finset.card_le_card_of_injOn (fun p => p / 4 + 1)
      · intro p hp
        obtain ⟨h3, hm, hpn⟩ := hmemS p hp
        rw [Finset.mem_erase]
        exact ⟨by omega, List.mem_toFinset.mpr hm⟩
      · intro p hp q hq hpq
        obtain ⟨hp3, -, -⟩ := hmemS p (Finset.mem_coe.mp hp)
        obtain ⟨hq3, -, -⟩ := hmemS q (Finset.mem_coe.mp hq)
        simp only at hpq
        omega
    have herase := Finset.card_erase_lt_of_mem
      (List.mem_toFinset.mpr hK :
        ((clean_sequence s).length + 1) / 4 ∈ arr.toFinset)
    have hfin := List.toFinset_card_le arr
    omega

/-- Witness for C9: the 2-nucleotide fragment `"-Gro-Ar"` with index set
`[1, 2]` (which contains the final nucleotide's index 2) and replacement
`'s'`: only one character changes, strictly fewer than the two indices. -/
theorem modify_linkage_final_nucleotide_witness :
    (modify_four_letter_sequence sample_flr_2 .linkage [1, 2] ['s']).length = 7 ∧
    (modify_four_letter_sequence sample_flr_2 .linkage [1, 2] ['s']).drop 4 =
      ['-', 'A', 'r'] ∧
    changed_count (modify_four_letter_sequence sample_flr_2 .linkage [1, 2] ['s'])
      (clean_sequence sample_flr_2) < 2 := by
  have h := modify_linkage_final_nucleotide sample_flr_2 [1, 2] 's' (by decide)
  exact ⟨h.1.trans (by decide), h.2.1, h.2.2 (by decide)⟩

/-- Counterexample to C5 as stated: `"X"` is a non-empty cleaned input whose
last character's position (0) mod 4 is not 2, yet
`validate_four_letter_sequence` rejects it with the invalid-modifier error
raised at position 0, not with the linkage-at-end error. -/
theorem linkage_end_error_counterexample :
    clean_sequence ['X'] ≠ [] ∧
    ((clean_sequence ['X']).length - 1) % 4 ≠ 2 ∧
    validate_four_letter_sequence ['X'] .dna true = .error (.invalidModifier 'X' 0) ∧
    validate_four_letter_sequence ['X'] .dna true ≠
      .error SequenceValidationException.linkageAtEnd := by
  decide

/-- C5 amended: for every non-empty cleaned input all of whose characters pass
their per-position class checks, if the last character's position mod 4 is not
2 then `validate_four_letter_sequence` fails with the linkage-at-end error; in
particular every such input ending on a linkage position (last index mod
4 = 3) is rejected with this error. (As stated the claim is false: an input
with an earlier per-character grammar violation is rejected with that earlier
error instead, see the counterexample.) -/
theorem validate_four_letter_linkage_end_amended (raw : List Char)
    (enc : Encoding) (norm : Bool)
    (hne : clean_sequence raw ≠ [])
    (hchars : ∀ j (hj : j < (clean_sequence raw).length),
      fl_char_ok (validated_bases enc) j ((clean_sequence raw).get ⟨j, hj⟩) = true)
    (hlast : ((clean_sequence raw).length - 1) % 4 ≠ 2) :
    validate_four_letter_sequence raw enc norm =
      .error SequenceValidationException.linkageAtEnd := by
  simp only [validate_four_letter_sequence]
  have hloop := fl_loop_all_ok_end (validated_bases enc) norm (clean_sequence raw)
      0 0 hne (by intro j hj; simpa using hchars j hj) (by simpa using hlast)
  have hpre : ¬ (0 < ((clean_sequence raw).map Char.toLower).countP
      (fun c => decide (c ∈ MODIFIERS)) ∧
      head_modifier_ok (clean_sequence raw) = false) := by
    simp [head_modifier_ok_of_char_ok hchars]
  rw [if_neg hpre, hloop]

/-- Witness for the amended C5: `"-Gro"` ends on a linkage position and is
rejected with the linkage-at-end error. -/
theorem validate_four_letter_linkage_end_amended_witness :
    validate_four_letter_sequence ['-', 'G', 'r', 'o'] .rna true =
      .error SequenceValidationException.linkageAtEnd :=
  validate_four_letter_linkage_end_amended ['-', 'G', 'r', 'o'] .rna true
    (by decide) (by decide) (by decide)

end SequencePy
